import Mathlib

/-!
Verification of `bioportal_annotator.py`.

Strings are modelled as `List Char`; Python's `str.lower` is modelled per
character by `Char.toLower` (the ASCII case mapping, which is what the
repository's inputs exercise).  The regex search
`re.search(rf"\b{re.escape(l)}\b", t)` is modelled by an explicit scan over
all start positions: `re.escape` makes the pattern match the label text
literally, and `\b` holds at a position exactly when a word character
(alphanumeric or underscore) stands on exactly one side of it.
-/

namespace BioPortal

/-- Regex word characters (`\w` over the ASCII range): uppercase and lowercase
letters, digits, and underscore. -/
def isWordChar (c : Char) : Bool :=
  (65 ≤ c.toNat && c.toNat ≤ 90) || (97 ≤ c.toNat && c.toNat ≤ 122) ||
    (48 ≤ c.toNat && c.toNat ≤ 57) || c = '_'

/-- Python `str.lower`, applied character by character. -/
def pyLower (s : List Char) : List Char := s.map Char.toLower

/-- The character at index `p` of `t` exists and is a word character. -/
def wordAt (t : List Char) (p : Nat) : Bool :=
  match t[p]? with
  | some c => isWordChar c
  | none => false

/-- Regex `\b` (word boundary) holds at position `p` of `t` (positions run from
0 to `t.length`): a word character stands on exactly one side of the position. -/
def boundaryAt (t : List Char) (p : Nat) : Bool :=
  (if p = 0 then false else wordAt t (p - 1)) != wordAt t p

/-- `pat` occurs in `t` as a contiguous block starting at index `i`. -/
def matchesAt (pat t : List Char) (i : Nat) : Bool :=
  pat.isPrefixOf (t.drop i)

/-- Python substring containment `pat in t`. -/
def isSubstring (pat t : List Char) : Bool :=
  (List.range (t.length + 1)).any fun i => matchesAt pat t i

/-- Python `re.search(rf"\b{re.escape(pat)}\b", t) is not None`: at some
position `pat` occurs literally with a word boundary on both sides. -/
def reSearchWordBounded (pat t : List Char) : Bool :=
  (List.range (t.length + 1)).any fun i =>
    matchesAt pat t i && boundaryAt t i && boundaryAt t (i + pat.length)

/-- `get_completeness` from `bioportal_annotator.py`: match quality between an
input term and an ontology label.  Returns `"Complete"`, `"Component"`,
`"Partial"`, or `""` for an uninformative match. -/
def get_completeness (input_term match_label : List Char) : String :=
  let t_norm := pyLower input_term
  let l_norm := pyLower match_label
  if t_norm = l_norm then "Complete"
  else if l_norm.contains ' ' && isSubstring l_norm t_norm then "Component"
  else if reSearchWordBounded l_norm t_norm then "Partial"
  else ""

example : get_completeness "Flu".toList "flu".toList = "Complete" := by decide
example : get_completeness "stomach ache".toList "stomach".toList = "Partial" := by decide
example : get_completeness "acute stomach ache".toList "stomach ache".toList = "Component" := by
  decide
example : get_completeness "painting".toList "pain".toList = "" := by decide
example : get_completeness "xa-by".toList "a-b".toList = "" := by decide
example : get_completeness "a  b".toList "  ".toList = "Component" := by decide
example : get_completeness "abc".toList "".toList = "Partial" := by decide
example : get_completeness "---".toList "".toList = "" := by decide
example : get_completeness "".toList "".toList = "Complete" := by decide

/-- The claim's notion of a multi-word label: some strictly internal position
of the label carries a regex word boundary. -/
def hasInternalBoundary (l : List Char) : Bool :=
  (List.range l.length).any fun p => decide (0 < p) && boundaryAt l p

/-! The ontology-list normalizer and the term loader. -/

/-- Python `str.strip`: drop leading and trailing whitespace. -/
def pyStrip (s : List Char) : List Char :=
  ((s.dropWhile Char.isWhitespace).reverse.dropWhile Char.isWhitespace).reverse

/-- Helper for `pySplitComma`: `acc` holds the current piece, reversed. -/
def splitCommaAux : List Char → List Char → List (List Char)
  | [], acc => [acc.reverse]
  | c :: cs, acc =>
    if c = ',' then acc.reverse :: splitCommaAux cs []
    else splitCommaAux cs (c :: acc)

/-- Python `str.split(",")`: split at every comma, keeping empty pieces. -/
def pySplitComma (s : List Char) : List (List Char) :=
  splitCommaAux s []

/-- `normalize_ontologies` from `bioportal_annotator.py`: split the
comma-separated acronym string, strip each piece, keep the non-empty pieces,
and fall back to `[""]` (query all ontologies) when none remain. -/
def normalize_ontologies (ontologies : List Char) : List (List Char) :=
  let cleaned := ((pySplitComma ontologies).map pyStrip).filter (fun o => o ≠ [])
  if cleaned = [] then [[]] else cleaned

/-- `load_terms` from `bioportal_annotator.py`: strip each line of the input
file and keep the non-empty results.  File access is modelled by passing the
file's lines. -/
def load_terms (lines : List (List Char)) : List (List Char) :=
  (lines.map pyStrip).filter (fun t => t ≠ [])

example : normalize_ontologies " DOID, MESH ".toList = ["DOID".toList, "MESH".toList] := by
  decide
example : normalize_ontologies ",  ,".toList = [[]] := by decide
example : load_terms ["Flu".toList, [], "  ".toList, "Cold ".toList] =
    ["Flu".toList, "Cold".toList] := by decide

/-! The annotation driver.  HTTP, CSV and console output are modelled
explicitly: the remote service is an oracle mapping the request parameters the
code sends to either a request failure (`none`) or a parsed JSON response
array, and the output file is the list of rows written after the header. -/

/-- One element of the service's JSON response array, as the driver reads it:
`annotations` is the `"annotations"` array when that key is present, each entry
carrying its `"text"` field when present, and `annotatedClassId` is
`"annotatedClass"."@id"` when present.  `none` marks a missing field, on which
the Python code raises. -/
structure AnnItem where
  annotations : Option (List (Option (List Char)))
  annotatedClassId : Option (List Char)
deriving DecidableEq

/-- The label the driver reads: `annotation["annotations"][0]["text"]`; `none`
when a field on the path is missing or the array is empty. -/
def itemLabel (it : AnnItem) : Option (List Char) :=
  match it.annotations with
  | none => none
  | some [] => none
  | some (first :: _) => first

/-- An output row, in column order: Term, Match, Completeness, Ontology, IRI. -/
structure Row where
  term : List Char
  matchLabel : List Char
  completeness : String
  ontology : List Char
  iri : List Char
deriving DecidableEq

/-- Python `str(b).lower()` on a bool. -/
def pyBoolStr (b : Bool) : List Char :=
  if b then "true".toList else "false".toList

/-- The keyword options of `annotate_terms`, with their defaults. -/
structure Config where
  include_synonyms : Bool := true
  whole_word_only : Bool := false
  longest_only : Bool := true
  direct_matches_only : Bool := true
  require_complete_match : Bool := false
deriving DecidableEq

/-- The request parameter dict built for one (term, scope) pair, in insertion
order. -/
def buildParams (api_key term ont : List Char) (cfg : Config) : List (String × List Char) :=
  let base := [("apikey", api_key), ("text", term),
    ("exclude_synonyms", pyBoolStr (!cfg.include_synonyms)),
    ("whole_word_only", pyBoolStr cfg.whole_word_only),
    ("longest_only", pyBoolStr cfg.longest_only)]
  let withOnt := if ont ≠ [] then base ++ [("ontologies", ont)] else base
  if cfg.direct_matches_only then
    withOnt ++ [("expand_class_hierarchy", "false".toList),
      ("class_hierarchy_max_level", "0".toList)]
  else withOnt

/-- The remote service: maps the request parameters to `none` (transport
error, timeout, or non-2xx status — a `requests.RequestException`) or to the
parsed JSON array. -/
abbrev Service := List (String × List Char) → Option (List AnnItem)

/-- Errors that abort a run: the empty-input `ValueError`, or the uncaught
`KeyError`/`IndexError`/`TypeError` raised while reading a response item that
lacks the expected fields, tagged with the (term, scope) pair being processed. -/
inductive RunError where
  | emptyInput : RunError
  | malformedItem : List Char → List Char → RunError
deriving DecidableEq

/-- The body of the per-annotation loop: `Except.error` when field extraction
raises, `.ok none` when the candidate is skipped by the Uninformative or the
require-complete filter, `.ok (some row)` when a row is written. -/
def processItem (term ont : List Char) (cfg : Config) (it : AnnItem) :
    Except Unit (Option Row) :=
  match itemLabel it, it.annotatedClassId with
  | some label, some iri =>
    let completeness := get_completeness term label
    if completeness = "" then .ok none
    else if cfg.require_complete_match = true ∧ completeness ≠ "Complete" then .ok none
    else .ok (some ⟨term, label, completeness,
      if ont = [] then "ALL".toList else ont, iri⟩)
  | _, _ => .error ()

/-- The response loop for one (term, scope) pair: the rows written in order,
and whether an uncaught extraction error aborted the run at this pair. -/
def processItems (term ont : List Char) (cfg : Config) : List AnnItem → List Row × Bool
  | [] => ([], false)
  | it :: rest =>
    match processItem term ont cfg it with
    | .error _ => ([], true)
    | .ok none => processItems term ont cfg rest
    | .ok (some r) =>
      (r :: (processItems term ont cfg rest).1, (processItems term ont cfg rest).2)

/-- One (term, scope) iteration: issue the request; a `RequestException`
(`none`) is caught, logged as a warning, and contributes no rows; a response is
processed item by item. -/
def runPair (svc : Service) (api_key : List Char) (cfg : Config) (term ont : List Char) :
    List Row × Bool :=
  match svc (buildParams api_key term ont cfg) with
  | none => ([], false)
  | some items => processItems term ont cfg items

/-- The driver's loop over (term, scope) pairs: the requests issued, the rows
written, and the error that aborted the run, if any.  An abort stops the loop;
a caught request failure does not. -/
def runPairs (svc : Service) (api_key : List Char) (cfg : Config) :
    List (List Char × List Char) →
      List (List (String × List Char)) × List Row × Option RunError
  | [] => ([], [], none)
  | (term, ont) :: rest =>
    if (runPair svc api_key cfg term ont).2 then
      ([buildParams api_key term ont cfg], (runPair svc api_key cfg term ont).1,
        some (.malformedItem term ont))
    else
      (buildParams api_key term ont cfg :: (runPairs svc api_key cfg rest).1,
        (runPair svc api_key cfg term ont).1 ++ (runPairs svc api_key cfg rest).2.1,
        (runPairs svc api_key cfg rest).2.2)

/-- The (term, scope) iteration order of the driver: terms outer, scopes inner. -/
def pairsOf (lines : List (List Char)) (ontologies : List Char) :
    List (List Char × List Char) :=
  (load_terms lines).flatMap fun t => (normalize_ontologies ontologies).map fun o => (t, o)

/-- The observable outcome of a run: whether the output file was opened, the
requests issued in order, the rows written after the header row, and the error
that terminated the run, if any. -/
structure RunOutcome where
  fileOpened : Bool
  requests : List (List (String × List Char))
  rows : List Row
  error : Option RunError
deriving DecidableEq

/-- `annotate_terms` from `bioportal_annotator.py`.  The input file is modelled
by its list of lines, the HTTP layer by the `svc` oracle, and the output file
by the rows of the outcome. -/
def annotate_terms (svc : Service) (api_key : List Char) (lines : List (List Char))
    (ontologies : List Char) (cfg : Config) : RunOutcome :=
  if load_terms lines = [] then ⟨false, [], [], some .emptyInput⟩
  else
    ⟨true, (runPairs svc api_key cfg (pairsOf lines ontologies)).1,
      (runPairs svc api_key cfg (pairsOf lines ontologies)).2.1,
      (runPairs svc api_key cfg (pairsOf lines ontologies)).2.2⟩

/-- A stubbed service echoing the requested text back as a single exact-match
candidate with a fixed IRI. -/
def svcEcho : Service := fun ps =>
  match List.lookup "text" ps with
  | some t => some [⟨some [some t], some "http://x/123".toList⟩]
  | none => some []

/-- A stubbed service answering term `"flu"` with a malformed item (empty
`annotations` array, so `annotations[0]` raises `IndexError`) and any other
term with a well-formed exact match. -/
def svcMalformed : Service := fun ps =>
  match List.lookup "text" ps with
  | some t =>
    if t = "flu".toList then some [⟨some [], some "http://x/1".toList⟩]
    else some [⟨some [some t], some "http://x/2".toList⟩]
  | none => some []

example :
    (annotate_terms svcEcho "k".toList ["aspirin".toList] "MESH".toList
        ⟨true, false, true, true, true⟩).rows =
      [⟨"aspirin".toList, "aspirin".toList, "Complete", "MESH".toList,
        "http://x/123".toList⟩] := by decide


/-! Character-level lemmas about the ASCII case mapping used by `pyLower`. -/

theorem char_toNat_ofNat_valid {m : Nat} (h : m.isValidChar) :
    (Char.ofNat m).toNat = m := by
  simp only [Char.ofNat, dif_pos h]
  rfl

theorem toLower_eq_ite (c : Char) :
    Char.toLower c =
      if c.toNat ≥ 65 ∧ c.toNat ≤ 90 then Char.ofNat (c.toNat + 32) else c := rfl

theorem toLower_eq_space_iff {c : Char} : Char.toLower c = ' ' ↔ c = ' ' := by
  rw [toLower_eq_ite]
  split
  · rename_i hc
    constructor
    · intro h
      exfalso
      have hv : Nat.isValidChar (Char.toNat c + 32) := Or.inl (by omega)
      have h2 := char_toNat_ofNat_valid hv
      rw [h] at h2
      have h32 : Char.toNat ' ' = 32 := by decide
      omega
    · intro h
      subst h
      exact absurd hc (by decide)
  · exact Iff.rfl

theorem space_mem_pyLower_iff {s : List Char} : ' ' ∈ pyLower s ↔ ' ' ∈ s := by
  unfold pyLower
  rw [List.mem_map]
  constructor
  · rintro ⟨c, hc, hl⟩
    rwa [toLower_eq_space_iff.mp hl] at hc
  · intro h
    exact ⟨' ', h, by decide⟩

theorem isWordChar_toLower (c : Char) : isWordChar (Char.toLower c) = isWordChar c := by
  rw [toLower_eq_ite]
  split
  · rename_i hc
    have hv : Nat.isValidChar (Char.toNat c + 32) := Or.inl (by omega)
    have ht := char_toNat_ofNat_valid hv
    have h1 : isWordChar c = true := by
      simp only [isWordChar, Bool.or_eq_true, Bool.and_eq_true, decide_eq_true_eq]
      exact Or.inl (Or.inl (Or.inl ⟨hc.1, hc.2⟩))
    have h2 : isWordChar (Char.ofNat (Char.toNat c + 32)) = true := by
      simp only [isWordChar, Bool.or_eq_true, Bool.and_eq_true, decide_eq_true_eq]
      refine Or.inl (Or.inl (Or.inr ⟨?_, ?_⟩)) <;> omega
    rw [h1, h2]
  · rfl

theorem any_isWordChar_pyLower {s : List Char} :
    (pyLower s).any isWordChar = s.any isWordChar := by
  unfold pyLower
  rw [List.any_map]
  congr 1
  funext c
  exact isWordChar_toLower c

/-! C4: exact match after case normalization. -/

/-- C4: for all terms `T` and labels `L` that are equal after lowercasing,
`get_completeness T L` returns `"Complete"`. -/
theorem getCompleteness_complete_of_lower_eq (input_term match_label : List Char)
    (h : pyLower input_term = pyLower match_label) :
    get_completeness input_term match_label = "Complete" := by
  simp [get_completeness, h]

/-- Witness for C4 at `T = "Flu"`, `L = "fLU"`. -/
theorem getCompleteness_complete_of_lower_eq_witness :
    pyLower "Flu".toList = pyLower "fLU".toList ∧
    get_completeness "Flu".toList "fLU".toList = "Complete" :=
  ⟨by decide, getCompleteness_complete_of_lower_eq _ _ (by decide)⟩

/-! C1: the Component tier. -/

/-- C1 counterexample: the label `"a-b"` has an internal word boundary (between
`a` and `-`), occurs case-insensitively as a contiguous substring of the term
`"xa-by"`, and differs from the term (both exactly and after lowercasing), yet
`get_completeness` classifies it as uninformative (`""`), not `"Component"`:
the code tests for a space character in the label, not for a word boundary. -/
theorem getCompleteness_component_cex :
    hasInternalBoundary "a-b".toList = true ∧
    isSubstring (pyLower "a-b".toList) (pyLower "xa-by".toList) = true ∧
    "a-b".toList ≠ "xa-by".toList ∧
    pyLower "a-b".toList ≠ pyLower "xa-by".toList ∧
    get_completeness "xa-by".toList "a-b".toList ≠ "Component" := by
  decide

/-- C1 (amended): for every label `L` that contains a space, occurs as a
contiguous substring of `T` after lowercasing, and is not equal to `T` after
lowercasing, `get_completeness T L` returns `"Component"`. -/
theorem getCompleteness_component_of_space_substring (input_term match_label : List Char)
    (hspace : ' ' ∈ match_label)
    (hsub : isSubstring (pyLower match_label) (pyLower input_term) = true)
    (hne : pyLower match_label ≠ pyLower input_term) :
    get_completeness input_term match_label = "Component" := by
  have hsp : ' ' ∈ pyLower match_label := space_mem_pyLower_iff.mpr hspace
  have hne2 : pyLower input_term ≠ pyLower match_label := fun h => hne h.symm
  simp [get_completeness, hne2, hsp, hsub]

/-- Witness for the amended C1 at `T = "acute Stomach Ache"`, `L = "stomach ache"`. -/
theorem getCompleteness_component_of_space_substring_witness :
    ' ' ∈ "stomach ache".toList ∧
    isSubstring (pyLower "stomach ache".toList) (pyLower "acute Stomach Ache".toList) = true ∧
    pyLower "stomach ache".toList ≠ pyLower "acute Stomach Ache".toList ∧
    get_completeness "acute Stomach Ache".toList "stomach ache".toList = "Component" :=
  ⟨by decide, by decide, by decide,
    getCompleteness_component_of_space_substring _ _ (by decide) (by decide) (by decide)⟩

/-! C5: the Partial tier. -/

/-- C5: for every label `L` that occurs in `T` bounded by word boundaries on
both sides (after lowercasing), is not equal to `T` after lowercasing, and does
not fire the Component branch (a space in the label together with substring
containment), `get_completeness T L` returns `"Partial"`. -/
theorem getCompleteness_partial_of_word_bounded (input_term match_label : List Char)
    (hb : reSearchWordBounded (pyLower match_label) (pyLower input_term) = true)
    (hne : pyLower match_label ≠ pyLower input_term)
    (hnc : ¬((pyLower match_label).contains ' ' = true ∧
        isSubstring (pyLower match_label) (pyLower input_term) = true)) :
    get_completeness input_term match_label = "Partial" := by
  simp only [get_completeness]
  rw [if_neg (fun h => hne h.symm), if_neg, if_pos hb]
  intro h
  rw [Bool.and_eq_true] at h
  exact hnc h

/-- Witness for C5 at `T = "stomach ache"`, `L = "Stomach"`. -/
theorem getCompleteness_partial_of_word_bounded_witness :
    reSearchWordBounded (pyLower "Stomach".toList) (pyLower "stomach ache".toList) = true ∧
    get_completeness "stomach ache".toList "Stomach".toList = "Partial" :=
  ⟨by decide,
    getCompleteness_partial_of_word_bounded _ _ (by decide) (by decide) (by decide)⟩

/-! Word boundaries versus word characters. -/

theorem wordAt_eq_true_iff {t : List Char} {p : Nat} :
    wordAt t p = true ↔ ∃ c, t[p]? = some c ∧ isWordChar c = true := by
  unfold wordAt
  cases hq : t[p]? with
  | none => simp
  | some c => simp

theorem wordAt_eq_false_of_any_eq_false {t : List Char} (h : t.any isWordChar = false)
    (p : Nat) : wordAt t p = false := by
  cases hw : wordAt t p with
  | false => rfl
  | true =>
    obtain ⟨c, hc, hcw⟩ := wordAt_eq_true_iff.mp hw
    have hmem : c ∈ t := List.getElem?_mem hc
    have := List.any_eq_false.mp h c hmem
    exact absurd hcw this

theorem boundaryAt_eq_false_of_any_eq_false {t : List Char} (h : t.any isWordChar = false)
    (p : Nat) : boundaryAt t p = false := by
  unfold boundaryAt
  rw [wordAt_eq_false_of_any_eq_false h p]
  by_cases h0 : p = 0
  · simp [h0]
  · simp [h0, wordAt_eq_false_of_any_eq_false h]

theorem exists_boundaryAt_of_any_eq_true {t : List Char} (h : t.any isWordChar = true) :
    ∃ p, p ≤ t.length ∧ boundaryAt t p = true := by
  have hex : ∃ x ∈ t, isWordChar x := by simpa using List.any_eq_true.mp h
  have hj : t.findIdx isWordChar < t.length := List.findIdx_lt_length_of_exists hex
  have hwj : wordAt t (t.findIdx isWordChar) = true := by
    unfold wordAt
    rw [List.getElem?_eq_getElem hj]
    exact List.findIdx_getElem (w := hj)
  by_cases h0 : t.findIdx isWordChar = 0
  · refine ⟨0, Nat.zero_le _, ?_⟩
    rw [h0] at hwj
    unfold boundaryAt
    simp [hwj]
  · refine ⟨t.findIdx isWordChar, Nat.le_of_lt hj, ?_⟩
    have hprev : wordAt t (t.findIdx isWordChar - 1) = false := by
      have hlt : t.findIdx isWordChar - 1 < t.findIdx isWordChar := by omega
      unfold wordAt
      rw [List.getElem?_eq_getElem (by omega : t.findIdx isWordChar - 1 < t.length)]
      exact List.not_of_lt_findIdx hlt
    unfold boundaryAt
    rw [if_neg h0, hprev, hwj]
    rfl

theorem reSearchWordBounded_nil (t : List Char) :
    reSearchWordBounded [] t = t.any isWordChar := by
  by_cases h : t.any isWordChar = true
  · rw [h]
    obtain ⟨p, hple, hb⟩ := exists_boundaryAt_of_any_eq_true h
    unfold reSearchWordBounded
    rw [List.any_eq_true]
    refine ⟨p, List.mem_range.mpr (by omega), ?_⟩
    simp [matchesAt, List.isPrefixOf, hb]
  · have h' : t.any isWordChar = false := by simpa using h
    rw [h']
    unfold reSearchWordBounded
    rw [List.any_eq_false]
    intro i _
    simp [boundaryAt_eq_false_of_any_eq_false h']

/-! C6: single-word labels matching only inside larger words. -/

/-- C6: for every label `L` containing no space whose every occurrence in the
lowercased term fails to be bounded by word boundaries on both sides, with `L`
not equal to `T` after lowercasing, `get_completeness T L` returns `""` (the
Uninformative value), so the caller discards the candidate. -/
theorem getCompleteness_empty_of_unbounded_occurrences (input_term match_label : List Char)
    (hspace : ' ' ∉ match_label)
    (hocc : ∀ i ≤ (pyLower input_term).length,
        matchesAt (pyLower match_label) (pyLower input_term) i = true →
        ¬(boundaryAt (pyLower input_term) i = true ∧
          boundaryAt (pyLower input_term) (i + (pyLower match_label).length) = true))
    (hne : pyLower match_label ≠ pyLower input_term) :
    get_completeness input_term match_label = "" := by
  have hsp : ' ' ∉ pyLower match_label := fun h => hspace (space_mem_pyLower_iff.mp h)
  have hcontains : (pyLower match_label).contains ' ' = false := by
    simpa using hsp
  have hsearch : reSearchWordBounded (pyLower match_label) (pyLower input_term) = false := by
    rw [← Bool.not_eq_true]
    unfold reSearchWordBounded
    rw [List.any_eq_true]
    rintro ⟨i, hi, hcond⟩
    rw [List.mem_range] at hi
    rw [Bool.and_eq_true, Bool.and_eq_true] at hcond
    exact hocc i (by omega) hcond.1.1 ⟨hcond.1.2, hcond.2⟩
  have hne2 : pyLower input_term ≠ pyLower match_label := fun h => hne h.symm
  simp [get_completeness, hne2, hsp, hcontains, hsearch]

/-- Witness for C6 at `T = "painting"`, `L = "Pain"`. -/
theorem getCompleteness_empty_of_unbounded_occurrences_witness :
    ' ' ∉ "Pain".toList ∧
    get_completeness "painting".toList "Pain".toList = "" :=
  ⟨by decide,
    getCompleteness_empty_of_unbounded_occurrences _ _ (by decide) (by decide) (by decide)⟩

/-! C10: totality and the empty-label edge case. -/

/-- C10: `get_completeness` is a total function (the embedding is a plain Lean
function on all pairs of character lists, with the escaped regex modelled as a
literal scan), and at the empty label it returns `"Complete"` when the term is
empty, `"Partial"` when the term contains at least one word character, and `""`
otherwise. -/
theorem getCompleteness_empty_label (input_term : List Char) :
    get_completeness input_term [] =
      if input_term = [] then "Complete"
      else if input_term.any isWordChar then "Partial" else "" := by
  simp only [get_completeness]
  by_cases h0 : input_term = []
  · subst h0
    simp [pyLower]
  · have h0' : pyLower input_term ≠ pyLower [] := by
      simpa [pyLower, List.map_eq_nil_iff] using h0
    rw [show pyLower [] = [] from rfl] at h0'
    rw [show pyLower [] = [] from rfl]
    rw [if_neg h0', if_neg (by simp), reSearchWordBounded_nil, any_isWordChar_pyLower,
      if_neg h0]

/-! C8: the ontology-list normalizer. -/

/-- C8: `normalize_ontologies` is the total function that splits its input on
commas, strips each piece, and drops the empty pieces preserving order,
returning `[""]` when no non-empty piece remains; in particular it sends `""`
and `",  ,"` to `[""]` and `" DOID, MESH "` to `["DOID", "MESH"]`. -/
theorem normalize_ontologies_spec :
    (∀ s : List Char,
      (((pySplitComma s).map pyStrip).filter (fun o => o ≠ []) = [] →
        normalize_ontologies s = [[]]) ∧
      (((pySplitComma s).map pyStrip).filter (fun o => o ≠ []) ≠ [] →
        normalize_ontologies s =
          ((pySplitComma s).map pyStrip).filter (fun o => o ≠ []))) ∧
    normalize_ontologies "".toList = [[]] ∧
    normalize_ontologies ",  ,".toList = [[]] ∧
    normalize_ontologies " DOID, MESH ".toList = ["DOID".toList, "MESH".toList] := by
  refine ⟨fun s => ⟨fun h => ?_, fun h => ?_⟩, by decide, by decide, by decide⟩
  · show (if ((pySplitComma s).map pyStrip).filter (fun o => o ≠ []) = [] then [[]]
      else ((pySplitComma s).map pyStrip).filter (fun o => o ≠ [])) = [[]]
    rw [if_pos h]
  · show (if ((pySplitComma s).map pyStrip).filter (fun o => o ≠ []) = [] then [[]]
      else ((pySplitComma s).map pyStrip).filter (fun o => o ≠ [])) =
        ((pySplitComma s).map pyStrip).filter (fun o => o ≠ [])
    rw [if_neg h]

/-- Witness for C8's general part at `"a,,b"`. -/
theorem normalize_ontologies_spec_witness :
    normalize_ontologies "a,,b".toList =
      ((pySplitComma "a,,b".toList).map pyStrip).filter (fun o => o ≠ []) :=
  (normalize_ontologies_spec.1 "a,,b".toList).2 (by decide)

/-! C7: empty input aborts before any request and before the output file. -/

/-- C7: when `load_terms` yields no terms, the run fails at once with the
empty-input error: no request is issued and the output file is never opened. -/
theorem annotate_terms_empty_input (svc : Service) (api_key : List Char)
    (lines : List (List Char)) (ontologies : List Char) (cfg : Config)
    (h : load_terms lines = []) :
    annotate_terms svc api_key lines ontologies cfg =
      ⟨false, [], [], some .emptyInput⟩ := by
  simp [annotate_terms, h]

/-- Witness for C7 on a file of blank lines. -/
theorem annotate_terms_empty_input_witness :
    load_terms ["  ".toList, [], "\t".toList] = [] ∧
    annotate_terms svcEcho "k".toList ["  ".toList, [], "\t".toList] "DOID".toList {} =
      ⟨false, [], [], some .emptyInput⟩ :=
  ⟨by decide, annotate_terms_empty_input _ _ _ _ _ (by decide)⟩

/-! Row provenance: every written row passed the per-item filters. -/

theorem get_completeness_cases (t l : List Char) :
    get_completeness t l = "Complete" ∨ get_completeness t l = "Component" ∨
      get_completeness t l = "Partial" ∨ get_completeness t l = "" := by
  by_cases h1 : pyLower t = pyLower l
  · exact Or.inl (by simp [get_completeness, h1])
  · by_cases h2 : ((pyLower l).contains ' ' && isSubstring (pyLower l) (pyLower t)) = true
    · refine Or.inr (Or.inl ?_)
      show (if pyLower t = pyLower l then "Complete"
        else if (pyLower l).contains ' ' && isSubstring (pyLower l) (pyLower t)
          then "Component"
        else if reSearchWordBounded (pyLower l) (pyLower t) then "Partial" else "") =
          "Component"
      rw [if_neg h1, if_pos h2]
    · by_cases h3 : reSearchWordBounded (pyLower l) (pyLower t) = true
      · refine Or.inr (Or.inr (Or.inl ?_))
        show (if pyLower t = pyLower l then "Complete"
          else if (pyLower l).contains ' ' && isSubstring (pyLower l) (pyLower t)
            then "Component"
          else if reSearchWordBounded (pyLower l) (pyLower t) then "Partial" else "") =
            "Partial"
        rw [if_neg h1, if_neg h2, if_pos h3]
      · refine Or.inr (Or.inr (Or.inr ?_))
        show (if pyLower t = pyLower l then "Complete"
          else if (pyLower l).contains ' ' && isSubstring (pyLower l) (pyLower t)
            then "Component"
          else if reSearchWordBounded (pyLower l) (pyLower t) then "Partial" else "") = ""
        rw [if_neg h1, if_neg h2, if_neg h3]

theorem processItem_eq_error {term ont : List Char} {cfg : Config} {it : AnnItem}
    (hbad : itemLabel it = none ∨ it.annotatedClassId = none) :
    processItem term ont cfg it = .error () := by
  unfold processItem
  rcases hbad with h | h
  · rw [h]
  · rw [h]
    cases itemLabel it <;> rfl

theorem processItem_eq_of_fields {term ont : List Char} {cfg : Config} {it : AnnItem}
    {label iri : List Char}
    (hl : itemLabel it = some label) (hi : it.annotatedClassId = some iri) :
    processItem term ont cfg it =
      (if get_completeness term label = "" then .ok none
       else if cfg.require_complete_match = true ∧ get_completeness term label ≠ "Complete"
         then .ok none
       else .ok (some ⟨term, label, get_completeness term label,
         if ont = [] then "ALL".toList else ont, iri⟩)) := by
  unfold processItem
  rw [hl, hi]

theorem processItem_row_spec {term ont : List Char} {cfg : Config} {it : AnnItem} {r : Row}
    (h : processItem term ont cfg it = .ok (some r)) :
    r.completeness ≠ "" ∧
      (r.completeness = "Complete" ∨ r.completeness = "Component" ∨
        r.completeness = "Partial") ∧
      (cfg.require_complete_match = true → r.completeness = "Complete") ∧
      r.ontology = (if ont = [] then "ALL".toList else ont) := by
  rcases hl : itemLabel it with _ | label
  · rw [processItem_eq_error (Or.inl hl)] at h
    exact absurd h (by simp)
  · rcases hi : it.annotatedClassId with _ | iri
    · rw [processItem_eq_error (Or.inr hi)] at h
      exact absurd h (by simp)
    · rw [processItem_eq_of_fields hl hi] at h
      split at h
      · exact absurd h (by simp)
      · split at h
        · exact absurd h (by simp)
        · rename_i hne hnc
          rw [Except.ok.injEq, Option.some.injEq] at h
          subst h
          refine ⟨hne, ?_, fun hr => ?_, rfl⟩
          · rcases get_completeness_cases term label with hc | hc | hc | hc
            · exact Or.inl hc
            · exact Or.inr (Or.inl hc)
            · exact Or.inr (Or.inr hc)
            · exact absurd hc hne
          · by_contra hcomp
            exact hnc ⟨hr, hcomp⟩

theorem processItems_rows_from_item {term ont : List Char} {cfg : Config}
    {items : List AnnItem} {r : Row} (h : r ∈ (processItems term ont cfg items).1) :
    ∃ it ∈ items, processItem term ont cfg it = .ok (some r) := by
  induction items with
  | nil => simp [processItems] at h
  | cons it rest ih =>
    unfold processItems at h
    cases hp : processItem term ont cfg it with
    | error e =>
      rw [hp] at h
      simp at h
    | ok o =>
      cases o with
      | none =>
        rw [hp] at h
        obtain ⟨it2, hmem, hit2⟩ := ih h
        exact ⟨it2, List.mem_cons_of_mem _ hmem, hit2⟩
      | some r2 =>
        rw [hp] at h
        simp only [List.mem_cons] at h
        rcases h with rfl | h
        · exact ⟨it, List.mem_cons_self _ _, hp⟩
        · obtain ⟨it2, hmem, hit2⟩ := ih h
          exact ⟨it2, List.mem_cons_of_mem _ hmem, hit2⟩

theorem runPair_rows_from_item {svc : Service} {api_key : List Char} {cfg : Config}
    {term ont : List Char} {r : Row} (h : r ∈ (runPair svc api_key cfg term ont).1) :
    ∃ it, processItem term ont cfg it = .ok (some r) := by
  unfold runPair at h
  cases hs : svc (buildParams api_key term ont cfg) with
  | none =>
    rw [hs] at h
    simp at h
  | some items =>
    rw [hs] at h
    obtain ⟨it, _, hit⟩ := processItems_rows_from_item h
    exact ⟨it, hit⟩

theorem runPairs_rows_from_item {svc : Service} {api_key : List Char} {cfg : Config}
    {pairs : List (List Char × List Char)} {r : Row}
    (h : r ∈ (runPairs svc api_key cfg pairs).2.1) :
    ∃ term ont it, processItem term ont cfg it = .ok (some r) := by
  induction pairs with
  | nil => simp [runPairs] at h
  | cons p rest ih =>
    obtain ⟨term, ont⟩ := p
    unfold runPairs at h
    split at h
    · obtain ⟨it, hit⟩ := runPair_rows_from_item h
      exact ⟨term, ont, it, hit⟩
    · rcases List.mem_append.mp h with h | h
      · obtain ⟨it, hit⟩ := runPair_rows_from_item h
        exact ⟨term, ont, it, hit⟩
      · exact ih h

/-! C3: the invariant on written rows. -/

/-- C3: every row written by `annotate_terms` carries a Completeness that is
non-empty and not the Uninformative value (it is one of `"Complete"`,
`"Component"`, `"Partial"`), and when `require_complete_match` is set every
written row's Completeness is exactly `"Complete"`. -/
theorem annotate_terms_rows_invariant (svc : Service) (api_key : List Char)
    (lines : List (List Char)) (ontologies : List Char) (cfg : Config) (r : Row)
    (h : r ∈ (annotate_terms svc api_key lines ontologies cfg).rows) :
    r.completeness ≠ "" ∧
      (r.completeness = "Complete" ∨ r.completeness = "Component" ∨
        r.completeness = "Partial") ∧
      (cfg.require_complete_match = true → r.completeness = "Complete") := by
  unfold annotate_terms at h
  split at h
  · simp at h
  · obtain ⟨term, ont, it, hit⟩ := runPairs_rows_from_item h
    obtain ⟨h1, h2, h3, _⟩ := processItem_row_spec hit
    exact ⟨h1, h2, h3⟩

/-- Witness for C3 on a run whose single written row is an exact match. -/
theorem annotate_terms_rows_invariant_witness :
    (⟨"flu".toList, "flu".toList, "Complete", "ALL".toList, "http://x/123".toList⟩ :
        Row).completeness ≠ "" :=
  (annotate_terms_rows_invariant svcEcho "k".toList ["flu".toList] "".toList {} _
    (by decide)).1

/-! C9: the scope parameter and the ALL column. -/

/-- C9: a pair processed under the sentinel scope (the empty string) sends no
`ontologies` request parameter and stamps `"ALL"` into the Ontology column of
every row it emits; any other scope sends `ontologies` set to the acronym. -/
theorem annotate_terms_scope_param (svc : Service) (api_key term ont : List Char)
    (cfg : Config) :
    (ont = [] → List.lookup "ontologies" (buildParams api_key term ont cfg) = none) ∧
    (ont ≠ [] → List.lookup "ontologies" (buildParams api_key term ont cfg) = some ont) ∧
    (ont = [] → ∀ r ∈ (runPair svc api_key cfg term ont).1, r.ontology = "ALL".toList) := by
  refine ⟨fun h0 => ?_, fun h0 => ?_, fun h0 r hr => ?_⟩
  · subst h0
    by_cases hd : cfg.direct_matches_only <;>
      simp [buildParams, hd, List.lookup]
  · by_cases hd : cfg.direct_matches_only <;>
      simp [buildParams, h0, hd, List.lookup]
  · subst h0
    obtain ⟨it, hit⟩ := runPair_rows_from_item hr
    have hont := (processItem_row_spec hit).2.2.2
    simpa using hont

/-- Witness for C9: the sentinel scope omits the parameter and stamps ALL,
while scope `"DOID"` sets the parameter. -/
theorem annotate_terms_scope_param_witness :
    List.lookup "ontologies" (buildParams "k".toList "flu".toList [] {}) = none ∧
    List.lookup "ontologies" (buildParams "k".toList "flu".toList "DOID".toList {}) =
      some "DOID".toList ∧
    (⟨"flu".toList, "flu".toList, "Complete", "ALL".toList, "http://x/123".toList⟩ :
        Row).ontology = "ALL".toList :=
  ⟨(annotate_terms_scope_param svcEcho "k".toList "flu".toList [] {}).1 rfl,
   (annotate_terms_scope_param svcEcho "k".toList "flu".toList "DOID".toList {}).2.1
     (by decide),
   (annotate_terms_scope_param svcEcho "k".toList "flu".toList [] {}).2.2 rfl _ (by decide)⟩

/-! C2: malformed response items are NOT treated as per-pair failures. -/

/-- C2 counterexample: with terms `["flu", "cold"]` and the search-all scope,
the `"flu"` response's single item has an empty `annotations` array, so
`annotations[0]` raises outside the `try` block.  Were the claim true, the
run would log a warning and continue: the `"cold"` pair alone produces a row
(third conjunct).  Instead the run aborts with an uncaught error and writes
nothing at all. -/
theorem annotate_terms_malformed_cex :
    (annotate_terms svcMalformed "k".toList ["flu".toList, "cold".toList] [] {}).error =
      some (.malformedItem "flu".toList []) ∧
    (annotate_terms svcMalformed "k".toList ["flu".toList, "cold".toList] [] {}).rows = [] ∧
    (annotate_terms svcMalformed "k".toList ["cold".toList] [] {}).rows ≠ [] := by
  decide

/-- C2 (amended): a malformed response item is not handled as a per-pair
failure: when the first item of a pair's response lacks the expected
`annotations[0].text` or `annotatedClass.@id` field, the run aborts at that
pair with an uncaught-error outcome — the pair contributes no rows, and no
later pair is processed (only transport and non-2xx failures, which surface
before the JSON loop, are logged and skipped per pair). -/
theorem annotate_terms_malformed_aborts (svc : Service) (api_key : List Char)
    (cfg : Config) (term ont : List Char) (rest : List (List Char × List Char))
    (it : AnnItem) (post : List AnnItem)
    (hresp : svc (buildParams api_key term ont cfg) = some (it :: post))
    (hbad : itemLabel it = none ∨ it.annotatedClassId = none) :
    runPairs svc api_key cfg ((term, ont) :: rest) =
      ([buildParams api_key term ont cfg], [], some (.malformedItem term ont)) := by
  have habort : runPair svc api_key cfg term ont = ([], true) := by
    unfold runPair
    rw [hresp]
    unfold processItems
    rw [processItem_eq_error hbad]
  unfold runPairs
  rw [habort]
  rfl

/-- Witness for the amended C2: the malformed `"flu"` response aborts the loop
ahead of a pair that would otherwise produce a row. -/
theorem annotate_terms_malformed_aborts_witness :
    runPairs svcMalformed "k".toList {} [("flu".toList, []), ("cold".toList, [])] =
      ([buildParams "k".toList "flu".toList [] {}], [],
        some (.malformedItem "flu".toList [])) :=
  annotate_terms_malformed_aborts svcMalformed "k".toList {} "flu".toList []
    [("cold".toList, [])] ⟨some [], some "http://x/1".toList⟩ [] (by decide)
    (Or.inl (by decide))

end BioPortal
